import Mathlib

/-!
Verification of `src/apps/chat/components/composer/WebInputModal.tsx` (big-AGI).

The file under verification is a React modal dialog that lets a user attach
web URLs to an outgoing chat message.  Its pure logic is shallow-embedded
here:

* `cleanUrls` / `handleSubmit` — the submit handler (lines 103-121): trims
  each entered url, validates it with `asValidURL(trimmed, true)`, collects
  the successes, and either shows a snackbar (empty result) or hands the
  cleaned list to `onWebLinks` and closes the dialog.
* `handleAddUrl` — the quick-add handler (lines 124-140): refuses when the
  field array is full or the url is already present, otherwise replaces the
  first empty field or appends.
* `stepFields` / `runFields` — the evolution of the `links` field array under
  the operations the UI exposes (quick-add chip, the `Another` button which
  is disabled at the maximum, the per-row remove button which is only
  rendered when more than one field exists, and plain text editing).
* `detectedUrlsSection` — the render decision for the detected-URLs section
  (lines 163-187).
* `hookStep` / `runHook` — the open/close state machine of the
  `useWebInputModal` hook (lines 263-286).

The external collaborators `asValidURL` and `extractUrlsFromText`
(`~/common/util/urlUtils`, not part of the provided sources) are taken as
parameters wherever possible; a concrete model of `asValidURL`, written from
the spec's description, is used where a concrete instance is required.
-/

/-- Mirrors `MAX_URLS = 5` (line 19 of the source). -/
def MAX_URLS : Nat := 5

/-- Mirrors `type WebInputData = { url: string }` (lines 21-24). -/
structure WebInputData where
  url : String
deriving Repr, DecidableEq

/-- The payload of an `addSnackbar` call: key, message and type. -/
structure Snackbar where
  key : String
  message : String
  type : String
deriving Repr, DecidableEq

/-- The observable effects the submit handler can perform. -/
inductive SubmitEffect where
  | showSnackbar (snackbar : Snackbar)
  | callOnWebLinks (urls : List WebInputData)
  | callOnClose
deriving Repr, DecidableEq

/-- JS `String.prototype.trim`: drop leading and trailing whitespace.  It is
written by structural recursion over the character list (Lean's own
`String.trim` is defined by well-founded recursion over byte positions and
therefore does not evaluate inside the kernel). -/
def jsTrim (s : String) : String :=
  ⟨((s.data.dropWhile Char.isWhitespace).reverse.dropWhile Char.isWhitespace).reverse⟩

/-- JS `String.prototype.startsWith`, structurally over character lists. -/
def strStartsWith (s p : String) : Bool :=
  p.data.isPrefixOf s.data

/-- Modelled from the spec: `asValidURL` (from `~/common/util/urlUtils`) is an
external collaborator whose source is not in the provided slice.  The spec
describes its relaxed mode as: "a user-entered string treated as a URL even
without an explicit scheme, defaulting to `https://`".  So a string that
already carries an explicit scheme is accepted as-is, and in relaxed mode a
bare non-empty string is accepted by defaulting the scheme to `https://`. -/
def asValidURL (textString : String) (relaxed : Bool) : Option String :=
  if strStartsWith textString "http://" || strStartsWith textString "https://" then
    some textString
  else if relaxed && textString ≠ "" then
    some ("https://" ++ textString)
  else
    none

/-- The url-cleaning reduce of `handleSubmit` (lines 105-114): trim each
entry, drop it when the trimmed url is empty, otherwise validate with
`validate trimmed true` (relaxed mode) and keep the normalized result;
failures are dropped.  `validate` stands for the external `asValidURL`. -/
def cleanUrls (validate : String → Bool → Option String) (links : List WebInputData) : List WebInputData :=
  links.foldl (fun acc link =>
    let trimmed := jsTrim link.url
    if trimmed ≠ "" then
      match validate trimmed true with
      | some relaxedUrl => acc ++ [{ url := relaxedUrl }]
      | none => acc
    else acc) []

/-- Written from the spec's words, for comparison with `cleanUrls`: the list
consists exactly of, in the original field order, the relaxed-validated
normalization of each entry whose trimmed url is non-empty and passes
validation; other entries contribute nothing. -/
def cleanUrlsSpec (validate : String → Bool → Option String) (links : List WebInputData) : List WebInputData :=
  links.filterMap (fun link =>
    if jsTrim link.url = "" then none
    else (validate (jsTrim link.url) true).map (fun relaxedUrl => { url := relaxedUrl }))

/-- The submit handler `handleSubmit` (lines 103-121), as the list of effects
it performs: when the cleaned list is empty it only shows the
`invalid-urls` issue snackbar; otherwise it calls `onWebLinks` with the
cleaned list and then closes the dialog (`handleClose`, which calls
`onClose`). -/
def handleSubmit (validate : String → Bool → Option String) (links : List WebInputData) : List SubmitEffect :=
  let cleanedUrls := cleanUrls validate links
  if cleanedUrls.isEmpty then
    [SubmitEffect.showSnackbar ⟨"invalid-urls", "Please enter at least one valid web address", "issue"⟩]
  else
    [SubmitEffect.callOnWebLinks cleanedUrls, SubmitEffect.callOnClose]

/-- The quick-add handler `handleAddUrl` (lines 124-140): returns the new
field array and the snackbar shown, if any.  It bails (array unchanged) when
the array is full (`!canAddMoreUrls`, i.e. not `length < MAX_URLS`) or when
some field's url is string-equal to the new url; otherwise it replaces the
first field whose trimmed url is empty, or appends a new field. -/
def handleAddUrl (formFields : List WebInputData) (newUrl : String) : List WebInputData × Option Snackbar :=
  if ¬ (formFields.length < MAX_URLS) then
    (formFields, some ⟨"max-urls", "Maximum " ++ toString MAX_URLS ++ " URLs allowed", "precondition-fail"⟩)
  else if formFields.any (fun field => field.url == newUrl) then
    (formFields, some ⟨"duplicate-url", "URL already added", "info"⟩)
  else
    match formFields.findIdx? (fun field => jsTrim field.url == "") with
    | some emptyFieldIndex => (formFields.set emptyFieldIndex { url := newUrl }, none)
    | none => (formFields ++ [{ url := newUrl }], none)

/-- The operations the rendered UI exposes on the `links` field array. -/
inductive FieldOp where
  | quickAdd (url : String)
  | clickAnother
  | removeField (index : Nat)
  | editField (index : Nat) (url : String)
deriving Repr

/-- One UI operation on the field array.  The `Another` button appends an
empty field but is disabled (`disabled={!canAddMoreUrls}`, line 238) when the
array is full; the remove button erases its row but is only rendered when
`urlFieldCount > 1` (line 214); editing replaces a field's url text. -/
def stepFields (formFields : List WebInputData) : FieldOp → List WebInputData
  | FieldOp.quickAdd url => (handleAddUrl formFields url).1
  | FieldOp.clickAnother =>
      if formFields.length < MAX_URLS then formFields ++ [{ url := "" }] else formFields
  | FieldOp.removeField index =>
      if formFields.length > 1 then formFields.eraseIdx index else formFields
  | FieldOp.editField index url => formFields.set index { url := url }

/-- The initial field array: `values: { links: [{ url: '' }] }` (line 70). -/
def initialFields : List WebInputData := [{ url := "" }]

/-- The field array after a sequence of UI operations, from the initial
single empty field. -/
def runFields (ops : List FieldOp) : List WebInputData :=
  ops.foldl stepFields initialFields

/-- What the detected-URLs section (lines 163-187) renders: nothing when no
URL was extracted from the composer text, otherwise a header carrying the
count and one chip per extracted URL. -/
inductive DetectedSection where
  | hidden
  | shown (headerCount : Nat) (chips : List String)
deriving Repr, DecidableEq

/-- The render decision of the detected-URLs section: the section is gated on
`!!extractedUrlsCount` (line 164), the header shows `extractedUrlsCount`
(line 171), and the chips map over `extractedComposerUrls` in order
(line 174).  `extract` stands for the external `extractUrlsFromText`,
applied to the composer text exactly as in the `extractedComposerUrls` memo
(lines 91-93). -/
def detectedUrlsSection (extract : String → List String) (composerText : String) : DetectedSection :=
  let extractedComposerUrls := extract composerText
  let extractedUrlsCount := extractedComposerUrls.length
  if extractedUrlsCount ≠ 0 then
    DetectedSection.shown extractedUrlsCount extractedComposerUrls
  else
    DetectedSection.hidden

/-- The calls that can reach the `useWebInputModal` hook (lines 263-286):
the caller invokes `openWebInputDialog`; the rendered modal invokes the
`onClose` it was given (`() => setOpen(false)`, line 277) or the
`onWebLinks` it was given (`onAttachWebLinks`, line 278). -/
inductive HookEvent where
  | openDialog
  | modalOnClose
  | modalOnWebLinks (urls : List WebInputData)
deriving Repr, DecidableEq

/-- The externally visible effect of the hook: the `onAttachWebLinks`
callback firing. -/
inductive HookEffect where
  | attachWebLinks (urls : List WebInputData)
deriving Repr, DecidableEq

/-- One step of the hook's state machine.  The state is the `open` boolean
(line 266).  `openWebInputDialog` sets it true (line 272); the modal's
`onClose` sets it false and does nothing else (line 277); the modal's
`onWebLinks` forwards the urls to `onAttachWebLinks` and leaves `open`
untouched (line 278). -/
def hookStep (isOpen : Bool) : HookEvent → Bool × List HookEffect
  | HookEvent.openDialog => (true, [])
  | HookEvent.modalOnClose => (false, [])
  | HookEvent.modalOnWebLinks urls => (isOpen, [HookEffect.attachWebLinks urls])

/-- The hook state and accumulated effects after a sequence of events,
starting closed (`useState(false)`, line 266). -/
def runHook (events : List HookEvent) : Bool × List HookEffect :=
  events.foldl (fun s e =>
    let r := hookStep s.1 e
    (r.1, s.2 ++ r.2)) (false, [])

/-- The dialog component is `open && <WebInputModal .../>` (line 274): it is
rendered exactly when the hook state is open. -/
def webInputDialogRendered (events : List HookEvent) : Bool :=
  (runHook events).1

/-! ### Helper lemmas -/

/-- Folding an append-one-or-zero step from the left is `filterMap`. -/
theorem foldl_filterMap_aux {α β : Type} (g : β → Option α) (l : List β) (acc : List α) :
    l.foldl (fun acc x => acc ++ (g x).toList) acc = acc ++ l.filterMap g := by
  induction l generalizing acc with
  | nil => simp
  | cons x xs ih =>
    simp only [List.foldl_cons]
    rw [ih]
    cases hg : g x <;> simp [List.filterMap_cons, hg]

/-- The submit-path reduce computes exactly the spec's `filterMap`. -/
theorem cleanUrls_eq_cleanUrlsSpec (validate : String → Bool → Option String)
    (links : List WebInputData) :
    cleanUrls validate links = cleanUrlsSpec validate links := by
  have hstep : (fun (acc : List WebInputData) (link : WebInputData) =>
      let trimmed := jsTrim link.url
      if trimmed ≠ "" then
        match validate trimmed true with
        | some relaxedUrl => acc ++ [{ url := relaxedUrl }]
        | none => acc
      else acc) = (fun (acc : List WebInputData) (link : WebInputData) =>
        acc ++ (if jsTrim link.url = "" then none
                else (validate (jsTrim link.url) true).map (fun relaxedUrl => ({ url := relaxedUrl } : WebInputData))).toList) := by
    funext acc link
    by_cases h : jsTrim link.url = ""
    · simp [h]
    · cases hv : validate (jsTrim link.url) true <;> simp [h, hv]
  unfold cleanUrls cleanUrlsSpec
  rw [hstep]
  have h2 := foldl_filterMap_aux (fun link =>
    if jsTrim link.url = "" then none
    else (validate (jsTrim link.url) true).map (fun relaxedUrl => ({ url := relaxedUrl } : WebInputData))) links []
  rw [List.nil_append] at h2
  exact h2

/-- Cleaning distributes over concatenation of the field list. -/
theorem cleanUrls_append (validate : String → Bool → Option String)
    (xs ys : List WebInputData) :
    cleanUrls validate (xs ++ ys) = cleanUrls validate xs ++ cleanUrls validate ys := by
  simp [cleanUrls_eq_cleanUrlsSpec, cleanUrlsSpec, List.filterMap_append]

/-- Cleaning never produces more entries than were submitted. -/
theorem length_cleanUrls_le (validate : String → Bool → Option String)
    (links : List WebInputData) :
    (cleanUrls validate links).length ≤ links.length := by
  rw [cleanUrls_eq_cleanUrlsSpec]
  exact List.length_filterMap_le _ _

/-- Quick-add with a full field array: refused with the max snackbar. -/
theorem handleAddUrl_of_full {formFields : List WebInputData} (newUrl : String)
    (h : ¬ formFields.length < MAX_URLS) :
    handleAddUrl formFields newUrl =
      (formFields, some ⟨"max-urls", "Maximum 5 URLs allowed", "precondition-fail"⟩) := by
  simp [handleAddUrl, h]
  rfl

/-- Quick-add with the url already present: refused with the duplicate
snackbar. -/
theorem handleAddUrl_of_dup {formFields : List WebInputData} {newUrl : String}
    (h : formFields.length < MAX_URLS)
    (hdup : formFields.any (fun field => field.url == newUrl)) :
    handleAddUrl formFields newUrl =
      (formFields, some ⟨"duplicate-url", "URL already added", "info"⟩) := by
  simp [handleAddUrl, h, hdup]

/-- Quick-add accepted, with a first empty field at index `i`: that field is
replaced. -/
theorem handleAddUrl_of_new_update {formFields : List WebInputData} {newUrl : String} {i : Nat}
    (h : formFields.length < MAX_URLS)
    (hnd : formFields.any (fun field => field.url == newUrl) = false)
    (hidx : formFields.findIdx? (fun field => jsTrim field.url == "") = some i) :
    handleAddUrl formFields newUrl = (formFields.set i { url := newUrl }, none) := by
  simp [handleAddUrl, h, hnd, hidx]

/-- Quick-add accepted with no empty field: a new field is appended. -/
theorem handleAddUrl_of_new_append {formFields : List WebInputData} {newUrl : String}
    (h : formFields.length < MAX_URLS)
    (hnd : formFields.any (fun field => field.url == newUrl) = false)
    (hidx : formFields.findIdx? (fun field => jsTrim field.url == "") = none) :
    handleAddUrl formFields newUrl = (formFields ++ [{ url := newUrl }], none) := by
  simp [handleAddUrl, h, hnd, hidx]

/-- Quick-add changes neither end of the 1..MAX_URLS length window. -/
theorem handleAddUrl_length_bounds (formFields : List WebInputData) (newUrl : String) :
    (1 ≤ formFields.length → 1 ≤ (handleAddUrl formFields newUrl).1.length) ∧
    (formFields.length ≤ MAX_URLS → (handleAddUrl formFields newUrl).1.length ≤ MAX_URLS) := by
  by_cases h1 : formFields.length < MAX_URLS
  · by_cases h2 : formFields.any (fun field => field.url == newUrl) = true
    · rw [handleAddUrl_of_dup h1 h2]
      exact ⟨fun h => h, fun h => h⟩
    · have h2' : formFields.any (fun field => field.url == newUrl) = false := by
        simpa using h2
      cases hidx : formFields.findIdx? (fun field => jsTrim field.url == "") with
      | some i =>
        rw [handleAddUrl_of_new_update h1 h2' hidx]
        simp
      | none =>
        rw [handleAddUrl_of_new_append h1 h2' hidx]
        simp only [List.length_append, List.length_cons, List.length_nil]
        omega
  · rw [handleAddUrl_of_full _ h1]
    exact ⟨fun h => h, fun h => h⟩

/-- Each UI operation keeps the field count in the 1..MAX_URLS window. -/
theorem stepFields_length_invariant (formFields : List WebInputData)
    (hlo : 1 ≤ formFields.length) (hhi : formFields.length ≤ MAX_URLS) (op : FieldOp) :
    1 ≤ (stepFields formFields op).length ∧ (stepFields formFields op).length ≤ MAX_URLS := by
  cases op with
  | quickAdd url =>
    exact ⟨(handleAddUrl_length_bounds _ _).1 hlo, (handleAddUrl_length_bounds _ _).2 hhi⟩
  | clickAnother =>
    by_cases h : formFields.length < MAX_URLS <;> simp only [stepFields, h, if_pos, if_neg,
      List.length_append, List.length_cons, List.length_nil, ite_true, ite_false] <;> omega
  | removeField index =>
    have h1 := List.length_eraseIdx_le formFields index
    have h2 := List.le_length_eraseIdx formFields index
    by_cases h : formFields.length > 1 <;>
      simp only [stepFields, h, ite_true, ite_false] <;> omega
  | editField index url =>
    simp only [stepFields, List.length_set]
    omega

/-- The field count stays in the 1..MAX_URLS window along every reachable
state. -/
theorem runFields_length_invariant (ops : List FieldOp) :
    1 ≤ (runFields ops).length ∧ (runFields ops).length ≤ MAX_URLS := by
  suffices h : ∀ (ops : List FieldOp) (fields : List WebInputData),
      1 ≤ fields.length → fields.length ≤ MAX_URLS →
      1 ≤ (ops.foldl stepFields fields).length ∧ (ops.foldl stepFields fields).length ≤ MAX_URLS by
    refine h ops initialFields (by simp [initialFields]) (by simp [initialFields, MAX_URLS])
  intro ops
  induction ops with
  | nil =>
    intro fields hlo hhi
    exact ⟨hlo, hhi⟩
  | cons op rest ih =>
    intro fields hlo hhi
    have hstep := stepFields_length_invariant fields hlo hhi op
    simpa using ih (stepFields fields op) hstep.1 hstep.2

/-- Unfolding `runHook` across one appended event. -/
theorem runHook_concat (events : List HookEvent) (e : HookEvent) :
    runHook (events ++ [e]) =
      ((hookStep (runHook events).1 e).1,
       (runHook events).2 ++ (hookStep (runHook events).1 e).2) := by
  unfold runHook
  rw [List.foldl_append]
  rfl

/-- The dialog is rendered exactly when some `openWebInputDialog` call has no
later `onClose` call after it. -/
theorem webInputDialogRendered_iff (events : List HookEvent) :
    webInputDialogRendered events = true ↔
      ∃ pre post, events = pre ++ HookEvent.openDialog :: post ∧
        HookEvent.modalOnClose ∉ post := by
  induction events using List.reverseRecOn with
  | nil =>
    constructor
    · intro h
      simp [webInputDialogRendered, runHook] at h
    · rintro ⟨pre, post, heq, -⟩
      exact absurd heq (by simp)
  | append_singleton evts e ih =>
    have hrend : webInputDialogRendered (evts ++ [e]) = (hookStep (runHook evts).1 e).1 := by
      simp [webInputDialogRendered, runHook_concat]
    cases e with
    | openDialog =>
      simp only [hrend, hookStep]
      constructor
      · intro _
        exact ⟨evts, [], by simp, by simp⟩
      · intro _
        trivial
    | modalOnClose =>
      simp only [hrend, hookStep]
      constructor
      · intro h
        exact absurd h (by simp)
      · rintro ⟨pre, post, heq, hnotin⟩
        rcases List.eq_nil_or_concat post with rfl | ⟨post', e', rfl⟩
        · have hlast := congrArg List.getLast? heq
          simp [List.getLast?_concat] at hlast
        · rw [List.concat_eq_append] at heq hnotin
          have heq' : evts ++ [HookEvent.modalOnClose] =
              (pre ++ HookEvent.openDialog :: post') ++ [e'] := by
            simpa [List.append_assoc] using heq
          have hlast := (List.append_inj' heq' rfl).2
          have he' : e' = HookEvent.modalOnClose := by
            cases hlast
            rfl
          subst he'
          exact (hnotin (by simp)).elim
    | modalOnWebLinks urls =>
      have hsame : webInputDialogRendered (evts ++ [HookEvent.modalOnWebLinks urls]) =
          webInputDialogRendered evts := by
        rw [hrend]
        rfl
      rw [hsame, ih]
      constructor
      · rintro ⟨pre, post, heq, hnotin⟩
        refine ⟨pre, post ++ [HookEvent.modalOnWebLinks urls], by simp [heq], ?_⟩
        simp [hnotin]
      · rintro ⟨pre, post, heq, hnotin⟩
        rcases List.eq_nil_or_concat post with rfl | ⟨post', e', rfl⟩
        · have hlast := congrArg List.getLast? heq
          simp [List.getLast?_concat] at hlast
        · rw [List.concat_eq_append] at heq hnotin
          have heq' : evts ++ [HookEvent.modalOnWebLinks urls] =
              (pre ++ HookEvent.openDialog :: post') ++ [e'] := by
            simpa [List.append_assoc] using heq
          have hparts := List.append_inj' heq' rfl
          have he' : e' = HookEvent.modalOnWebLinks urls := by
            cases hparts.2
            rfl
          subst he'
          refine ⟨pre, post', hparts.1, fun hmem => hnotin ?_⟩
          exact List.mem_append_left _ hmem

/-- A successful `findIdx?` splits the list at the first hit, and `set` at
that index replaces exactly the hit. -/
theorem findIdx?_some_decomp {α : Type} (p : α → Bool) (l : List α) (i : Nat)
    (h : l.findIdx? p = some i) (a : α) :
    ∃ pre x post, l = pre ++ x :: post ∧ pre.length = i ∧ p x = true ∧
      (∀ y ∈ pre, p y = false) ∧ l.set i a = pre ++ a :: post := by
  induction l generalizing i with
  | nil => simp at h
  | cons hd tl ih =>
    rw [List.findIdx?_cons] at h
    by_cases hp : p hd
    · rw [if_pos hp] at h
      obtain rfl : i = 0 := by
        cases h
        rfl
      exact ⟨[], hd, tl, by simp, rfl, hp, by simp, by simp⟩
    · rw [if_neg hp, List.findIdx?_succ] at h
      cases hj : tl.findIdx? p with
      | none => rw [hj] at h; simp at h
      | some j =>
        rw [hj] at h
        simp only [Option.map_some'] at h
        obtain rfl : j + 1 = i := by
          cases h
          rfl
        obtain ⟨pre, x, post, hdecomp, hlen, hpx, hpre, hset⟩ := ih j hj
        refine ⟨hd :: pre, x, post, by simp [hdecomp], by simp [hlen], hpx, ?_, ?_⟩
        · intro y hy
          rcases List.mem_cons.mp hy with rfl | hy
          · simpa using hp
          · exact hpre y hy
        · simpa [hdecomp] using congrArg (hd :: ·) hset

/-! ### Claim theorems -/

/-- C1: for every submitted form, the list handed to the `onWebLinks`
callback consists exactly of, in the original field order, the
relaxed-validated normalization `asValidURL(trim(url), true)` of each entry
whose trimmed url is non-empty and passes validation; entries that are empty
after trimming or fail validation are dropped and contribute nothing. -/
theorem C1_submit_hands_back_cleaned_list (validate : String → Bool → Option String)
    (links : List WebInputData) :
    cleanUrls validate links = cleanUrlsSpec validate links ∧
    ∀ urls, SubmitEffect.callOnWebLinks urls ∈ handleSubmit validate links →
      urls = cleanUrlsSpec validate links := by
  refine ⟨cleanUrls_eq_cleanUrlsSpec validate links, ?_⟩
  intro urls hmem
  simp only [handleSubmit] at hmem
  rw [← cleanUrls_eq_cleanUrlsSpec]
  by_cases h : cleanUrls validate links = []
  · simp [h] at hmem
  · simp [h] at hmem
    exact hmem

/-- Witness for C1: one concrete submitted form, with the spec-modelled
relaxed validator, hands back exactly the normalized bare domain. -/
theorem C1_witness :
    cleanUrls asValidURL [{ url := "big-agi.com" }] =
      cleanUrlsSpec asValidURL [{ url := "big-agi.com" }] ∧
    [{ url := "https://big-agi.com" }] = cleanUrlsSpec asValidURL [{ url := "big-agi.com" }] := by
  refine ⟨(C1_submit_hands_back_cleaned_list asValidURL [{ url := "big-agi.com" }]).1, ?_⟩
  exact (C1_submit_hands_back_cleaned_list asValidURL [{ url := "big-agi.com" }]).2
    [{ url := "https://big-agi.com" }] (by decide)

/-- C2 counterexample: submitting the same valid URL in two fields hands back
a list that contains a duplicate — the submit-path cleaning performs no
deduplication. -/
theorem C2_counterexample :
    cleanUrls asValidURL [{ url := "https://example.com" }, { url := "https://example.com" }] =
      [{ url := "https://example.com" }, { url := "https://example.com" }] ∧
    ¬ (cleanUrls asValidURL
        [{ url := "https://example.com" }, { url := "https://example.com" }]).Nodup := by
  constructor
  · decide
  · decide

/-- C2 (amended): the submit-path cleaning trims and validates entrywise but
performs no deduplication — it distributes over concatenation of the field
list, so duplicated entries are preserved as duplicated outputs. -/
theorem C2_amended_no_dedup (validate : String → Bool → Option String)
    (xs ys : List WebInputData) :
    cleanUrls validate (xs ++ ys) = cleanUrls validate xs ++ cleanUrls validate ys :=
  cleanUrls_append validate xs ys

/-- C3: when cleaning yields an empty list, the submit handler only shows the
`invalid-urls` issue snackbar with message "Please enter at least one valid
web address" — it neither calls `onWebLinks` nor closes the dialog; and
`onWebLinks` is called exactly when the cleaned list is non-empty, in which
case the dialog is then closed. -/
theorem C3_submit_control_flow (validate : String → Bool → Option String)
    (links : List WebInputData) :
    (cleanUrls validate links = [] →
      handleSubmit validate links =
        [SubmitEffect.showSnackbar ⟨"invalid-urls", "Please enter at least one valid web address", "issue"⟩]) ∧
    (cleanUrls validate links ≠ [] →
      handleSubmit validate links =
        [SubmitEffect.callOnWebLinks (cleanUrls validate links), SubmitEffect.callOnClose]) ∧
    ((∃ urls, SubmitEffect.callOnWebLinks urls ∈ handleSubmit validate links) ↔
      cleanUrls validate links ≠ []) ∧
    (SubmitEffect.callOnClose ∈ handleSubmit validate links ↔ cleanUrls validate links ≠ []) := by
  by_cases h : cleanUrls validate links = []
  · refine ⟨fun _ => by simp [handleSubmit, h], fun hne => absurd h hne, ?_, ?_⟩
    · constructor
      · rintro ⟨urls, hmem⟩
        simp [handleSubmit, h] at hmem
      · intro hne
        exact absurd h hne
    · constructor
      · intro hmem
        simp [handleSubmit, h] at hmem
      · intro hne
        exact absurd h hne
  · refine ⟨fun he => absurd he h, fun _ => by simp [handleSubmit, h], ?_, ?_⟩
    · constructor
      · intro _
        exact h
      · intro _
        exact ⟨cleanUrls validate links, by simp [handleSubmit, h]⟩
    · constructor
      · intro _
        exact h
      · intro _
        simp [handleSubmit, h]

/-- Witness for C3: submitting the initial single empty field shows the
issue snackbar and nothing else. -/
theorem C3_witness :
    handleSubmit asValidURL [{ url := "" }] =
      [SubmitEffect.showSnackbar ⟨"invalid-urls", "Please enter at least one valid web address", "issue"⟩] :=
  (C3_submit_control_flow asValidURL [{ url := "" }]).1 (by decide)

/-- C7: the submit-path validation only ever consults the validator in
relaxed mode (`asValidURL` is always called with its relaxed flag `true`),
and with the spec-modelled relaxed validator a bare domain is accepted and
handed back with the `https://` scheme defaulted in. -/
theorem C7_relaxed_validation :
    (∀ (v1 v2 : String → Bool → Option String) (links : List WebInputData),
        (∀ s, v1 s true = v2 s true) → cleanUrls v1 links = cleanUrls v2 links) ∧
    cleanUrls asValidURL [{ url := "big-agi.com" }] = [{ url := "https://big-agi.com" }] := by
  constructor
  · intro v1 v2 links hagree
    rw [cleanUrls_eq_cleanUrlsSpec, cleanUrls_eq_cleanUrlsSpec]
    unfold cleanUrlsSpec
    exact List.filterMap_congr (fun link _ => by rw [hagree])
  · decide

/-- Witness for C7: two validators that agree in relaxed mode but differ in
strict mode clean a concrete field list identically. -/
theorem C7_witness :
    cleanUrls (fun s _ => some s) [{ url := "x" }] =
      cleanUrls (fun s b => if b then some s else none) [{ url := "x" }] :=
  C7_relaxed_validation.1 (fun s _ => some s) (fun s b => if b then some s else none)
    [{ url := "x" }] (fun _ => rfl)

/-- C8: the detected-URLs section renders exactly the list returned by
`extractUrlsFromText` applied to the composer draft text, one quick-add chip
per URL in that order, with a header count equal to the list's length; when
the list is empty the section is not rendered at all. -/
theorem C8_detected_urls_section (extract : String → List String) (composerText : String) :
    (detectedUrlsSection extract composerText = DetectedSection.hidden ↔
      extract composerText = []) ∧
    (extract composerText ≠ [] →
      detectedUrlsSection extract composerText =
        DetectedSection.shown (extract composerText).length (extract composerText)) := by
  by_cases h : extract composerText = []
  · refine ⟨⟨fun _ => h, fun _ => by simp [detectedUrlsSection, h]⟩, fun hne => absurd h hne⟩
  · have hlen : (extract composerText).length ≠ 0 := by
      simpa [List.length_eq_zero] using h
    refine ⟨⟨fun hh => ?_, fun he => absurd he h⟩, fun _ => by simp [detectedUrlsSection, hlen]⟩
    exfalso
    simp [detectedUrlsSection, hlen] at hh

/-- Witness for C8: with two extracted URLs the section is shown with header
count 2 and the two chips in order. -/
theorem C8_witness :
    detectedUrlsSection (fun _ => ["https://a.example", "https://b.example"]) "draft" =
      DetectedSection.shown 2 ["https://a.example", "https://b.example"] :=
  (C8_detected_urls_section (fun _ => ["https://a.example", "https://b.example"]) "draft").2
    (by decide)

/-- C4: the number of URL fields stays between 1 and the fixed maximum of 5
inclusive along every sequence of UI operations from the initial single
field; the cleaned list handed to the caller therefore never has more than 5
URLs; and at a count of 5 both field-adding operations (quick-add and the
`Another` button) are refused, leaving the array unchanged. -/
theorem C4_field_count_window (ops : List FieldOp) :
    1 ≤ (runFields ops).length ∧ (runFields ops).length ≤ MAX_URLS ∧
    (∀ validate, (cleanUrls validate (runFields ops)).length ≤ MAX_URLS) ∧
    ((runFields ops).length = MAX_URLS → ∀ url,
      stepFields (runFields ops) (FieldOp.quickAdd url) = runFields ops ∧
      stepFields (runFields ops) FieldOp.clickAnother = runFields ops) := by
  obtain ⟨hlo, hhi⟩ := runFields_length_invariant ops
  refine ⟨hlo, hhi, fun validate => le_trans (length_cleanUrls_le validate _) hhi, ?_⟩
  intro hfull url
  have h5 : ¬ (runFields ops).length < MAX_URLS := by omega
  constructor
  · show (handleAddUrl (runFields ops) url).1 = runFields ops
    rw [handleAddUrl_of_full _ h5]
  · simp [stepFields, h5]

/-- Witness for C4: after four `Another` clicks the array holds 5 fields and
a quick-add is refused without changing it. -/
theorem C4_witness :
    stepFields
        (runFields [FieldOp.clickAnother, FieldOp.clickAnother, FieldOp.clickAnother, FieldOp.clickAnother])
        (FieldOp.quickAdd "https://x.example") =
      runFields [FieldOp.clickAnother, FieldOp.clickAnother, FieldOp.clickAnother, FieldOp.clickAnother] :=
  ((C4_field_count_window
      [FieldOp.clickAnother, FieldOp.clickAnother, FieldOp.clickAnother, FieldOp.clickAnother]).2.2.2
    (by decide) "https://x.example").1

/-- C5: a refused quick-add leaves the field array completely unchanged and
shows the corresponding snackbar: the max snackbar when the array already
holds 5 fields, and the duplicate snackbar when (the array has room and) the
clicked URL is string-equal to some existing field's url. -/
theorem C5_quickadd_refusals (formFields : List WebInputData) (newUrl : String) :
    (¬ formFields.length < MAX_URLS →
      handleAddUrl formFields newUrl =
        (formFields, some ⟨"max-urls", "Maximum 5 URLs allowed", "precondition-fail"⟩)) ∧
    (formFields.length < MAX_URLS → (∃ field ∈ formFields, field.url = newUrl) →
      handleAddUrl formFields newUrl =
        (formFields, some ⟨"duplicate-url", "URL already added", "info"⟩)) := by
  refine ⟨fun h => handleAddUrl_of_full newUrl h, fun h1 hex => ?_⟩
  apply handleAddUrl_of_dup h1
  rcases hex with ⟨field, hmem, hf⟩
  exact List.any_eq_true.mpr ⟨field, hmem, by simp [hf]⟩

/-- Witness for C5: quick-add into a full 5-field array is refused with the
max snackbar and the array is returned unchanged. -/
theorem C5_witness :
    handleAddUrl
        [{ url := "https://a.example" }, { url := "https://b.example" }, { url := "https://c.example" },
         { url := "https://d.example" }, { url := "https://e.example" }] "https://f.example" =
      ([{ url := "https://a.example" }, { url := "https://b.example" }, { url := "https://c.example" },
        { url := "https://d.example" }, { url := "https://e.example" }],
       some ⟨"max-urls", "Maximum 5 URLs allowed", "precondition-fail"⟩) :=
  (C5_quickadd_refusals
      [{ url := "https://a.example" }, { url := "https://b.example" }, { url := "https://c.example" },
       { url := "https://d.example" }, { url := "https://e.example" }] "https://f.example").1
    (by decide)

/-- C6: an accepted quick-add (room left and url not present) replaces the
first field whose url is empty after trimming — leaving the field count
unchanged — and otherwise appends a new field at the end, increasing the
count by exactly one; no snackbar is shown. -/
theorem C6_quickadd_accepts (formFields : List WebInputData) (newUrl : String)
    (hroom : formFields.length < MAX_URLS)
    (hnew : ∀ field ∈ formFields, field.url ≠ newUrl) :
    ((∃ field ∈ formFields, jsTrim field.url = "") →
      ∃ pre fEmpty post, formFields = pre ++ fEmpty :: post ∧ jsTrim fEmpty.url = "" ∧
        (∀ g ∈ pre, jsTrim g.url ≠ "") ∧
        handleAddUrl formFields newUrl = (pre ++ { url := newUrl } :: post, none) ∧
        (handleAddUrl formFields newUrl).1.length = formFields.length) ∧
    ((∀ field ∈ formFields, jsTrim field.url ≠ "") →
      handleAddUrl formFields newUrl = (formFields ++ [{ url := newUrl }], none) ∧
      (handleAddUrl formFields newUrl).1.length = formFields.length + 1) := by
  have hnd : formFields.any (fun field => field.url == newUrl) = false := by
    rw [List.any_eq_false]
    intro field hmem
    simpa using hnew field hmem
  constructor
  · intro hex
    cases hidx : formFields.findIdx? (fun field => jsTrim field.url == "") with
    | none =>
      exfalso
      rw [List.findIdx?_eq_none_iff] at hidx
      rcases hex with ⟨field, hmem, hf⟩
      have := hidx field hmem
      simp [hf] at this
    | some i =>
      obtain ⟨pre, x, post, hdecomp, hlen, hpx, hpre, hset⟩ :=
        findIdx?_some_decomp (fun field => jsTrim field.url == "") formFields i hidx { url := newUrl }
      refine ⟨pre, x, post, hdecomp, by simpa using hpx, ?_, ?_, ?_⟩
      · intro g hg
        simpa using hpre g hg
      · rw [handleAddUrl_of_new_update hroom hnd hidx, hset]
      · rw [handleAddUrl_of_new_update hroom hnd hidx]
        simp
  · intro hall
    have hidx : formFields.findIdx? (fun field => jsTrim field.url == "") = none := by
      rw [List.findIdx?_eq_none_iff]
      intro field hmem
      simpa using hall field hmem
    constructor
    · exact handleAddUrl_of_new_append hroom hnd hidx
    · rw [handleAddUrl_of_new_append hroom hnd hidx]
      simp

/-- Witness for C6: with one non-empty field and a fresh url, quick-add
appends and the count grows from 1 to 2. -/
theorem C6_witness :
    handleAddUrl [{ url := "https://one.example" }] "https://two.example" =
      ([{ url := "https://one.example" }, { url := "https://two.example" }], none) ∧
    (handleAddUrl [{ url := "https://one.example" }] "https://two.example").1.length = 2 :=
  (C6_quickadd_accepts [{ url := "https://one.example" }] "https://two.example"
    (by decide) (by decide)).2 (by decide)

/-- C9: quick-add is idempotent on the field array: invoking it twice in
succession with the same URL leaves the array exactly as after one
invocation. -/
theorem C9_quickadd_idempotent (formFields : List WebInputData) (newUrl : String) :
    (handleAddUrl (handleAddUrl formFields newUrl).1 newUrl).1 =
      (handleAddUrl formFields newUrl).1 := by
  by_cases h1 : formFields.length < MAX_URLS
  · by_cases h2 : formFields.any (fun field => field.url == newUrl) = true
    · simp [handleAddUrl_of_dup h1 h2]
    · have h2' : formFields.any (fun field => field.url == newUrl) = false := by
        simpa using h2
      cases hidx : formFields.findIdx? (fun field => jsTrim field.url == "") with
      | some i =>
        obtain ⟨hi, -, -⟩ := List.findIdx?_eq_some_iff_getElem.mp hidx
        rw [handleAddUrl_of_new_update h1 h2' hidx]
        show (handleAddUrl (formFields.set i { url := newUrl }) newUrl).1 =
          formFields.set i { url := newUrl }
        have hlen : (formFields.set i { url := newUrl }).length < MAX_URLS := by
          simpa using h1
        have hi' : i < (formFields.set i { url := newUrl }).length := by
          simpa using hi
        have hget : (formFields.set i { url := newUrl }).get ⟨i, hi'⟩ = { url := newUrl } := by
          simp
        have hmem : ({ url := newUrl } : WebInputData) ∈ formFields.set i { url := newUrl } := by
          have hm := List.get_mem (formFields.set i { url := newUrl }) i hi'
          rwa [hget] at hm
        have hdup2 : (formFields.set i { url := newUrl }).any
            (fun field => field.url == newUrl) = true :=
          List.any_eq_true.mpr ⟨({ url := newUrl } : WebInputData), hmem, by simp⟩
        rw [handleAddUrl_of_dup hlen hdup2]
      | none =>
        rw [handleAddUrl_of_new_append h1 h2' hidx]
        show (handleAddUrl (formFields ++ [{ url := newUrl }]) newUrl).1 =
          formFields ++ [{ url := newUrl }]
        have hdup2 : (formFields ++ [({ url := newUrl } : WebInputData)]).any
            (fun field => field.url == newUrl) = true :=
          List.any_eq_true.mpr ⟨({ url := newUrl } : WebInputData), by simp, by simp⟩
        by_cases h3 : (formFields ++ [({ url := newUrl } : WebInputData)]).length < MAX_URLS
        · rw [handleAddUrl_of_dup h3 hdup2]
        · rw [handleAddUrl_of_full _ h3]
  · simp [handleAddUrl_of_full newUrl h1]

/-- C10: in `useWebInputModal` the dialog component is rendered exactly when
some `openWebInputDialog` call has happened with no close since (the hook
starts closed), and the close/cancel path only resets the open flag to
false — it never fires `onAttachWebLinks`. -/
theorem C10_hook_render_and_close (events : List HookEvent) :
    (webInputDialogRendered events = true ↔
      ∃ pre post, events = pre ++ HookEvent.openDialog :: post ∧
        HookEvent.modalOnClose ∉ post) ∧
    ∀ isOpen, hookStep isOpen HookEvent.modalOnClose = (false, []) :=
  ⟨webInputDialogRendered_iff events, fun _ => rfl⟩

/-- Witness for C10: after a single open the dialog is rendered. -/
theorem C10_witness :
    webInputDialogRendered [HookEvent.openDialog] = true :=
  ((C10_hook_render_and_close [HookEvent.openDialog]).1).mpr ⟨[], [], rfl, by simp⟩
